import Mathlib

/-!
Verification of the Go class projection of jsii-pacmak
(`packages/jsii-pacmak/lib/targets/go/types/class.ts`) and of the
jsii-diff command line entry point
(`packages/jsii-diff/bin/jsii-diff.ts`).

The TypeScript sources are shallowly embedded below.  The reflected type
model (`jsii-reflect`: `ClassType`, `getAncestors`, `allMethods`,
`allProperties`) and a few helpers (`comparators.byName`, the property
member emitters from `type-member.ts`) are not part of the analysed
sources, so they are modelled from the specification where noted.
String comparison is modelled as byte-wise lexicographic order on the
character sequences.
-/

namespace JsiiGo

/-- Byte-wise lexicographic comparison of character sequences; the
comparison backing name ordering of emitted members. -/
def charsLe : List Char → List Char → Bool
  | [], _ => true
  | _ :: _, [] => false
  | a :: as, b :: bs =>
    if a.val.toNat < b.val.toNat then true
    else if b.val.toNat < a.val.toNat then false
    else charsLe as bs

/-- Modelled from the spec: `localeCompare`-style name ordering
(`comparators.byName` lives outside the analysed sources); modelled as
lexicographic order on the character sequence. -/
def strLe (a b : String) : Bool := charsLe a.data b.data

/-- A reflected member (method or property).  `immutable` is only
meaningful for properties; `definingType` is the fqn of the type node the
member was originally declared on. -/
structure Member where
  name : String
  isStatic : Bool
  immutable : Bool
  definingType : String
  deriving DecidableEq, Repr

/-- A reflected type node (class or interface) of the resolved type
graph: fqn, simple name, originating assembly, Go package, optional base
class, directly implemented interfaces (declared order), own members,
and initializer data. -/
structure TypeNode where
  fqn : String
  name : String
  assemblyFqn : String
  pkgName : String
  base : Option String
  interfaces : List String
  ownMethods : List Member
  ownProperties : List Member
  hasInitializer : Bool
  initializerParams : List String
  deriving DecidableEq, Repr

/-- The resolved type graph: the list of all type nodes. -/
abbrev Graph := List TypeNode

/-- Look a type node up by fqn (`this.pkg.root.findType`). -/
def findType (g : Graph) (f : String) : Option TypeNode :=
  g.find? (fun t => t.fqn == f)

/-- The fqns a node directly derives from: its base class (if any)
followed by its directly implemented interfaces. -/
def directBases (t : TypeNode) : List String :=
  (match t.base with | some b => [b] | none => []) ++ t.interfaces

/-- Fuel bound for the ancestor walk: every frontier insertion is
accounted for by the start node or by one node of the graph. -/
def ancestorFuel (g : Graph) (t : TypeNode) : Nat :=
  (directBases t).length + g.foldl (fun a n => a + (directBases n).length) 0 + 1

/-- Breadth-first walk of the derivation edges, skipping already seen
fqns. -/
def ancestorsFrom (g : Graph) : Nat → List String → List String → List TypeNode
  | 0, _, _ => []
  | _ + 1, [], _ => []
  | n + 1, f :: rest, seen =>
    if f ∈ seen then ancestorsFrom g n rest seen
    else
      match findType g f with
      | none => ancestorsFrom g n rest (f :: seen)
      | some t => t :: ancestorsFrom g n (rest ++ directBases t) (f :: seen)

/-- Modelled from the spec: `type.getAncestors()` of the reflected type
model — every class or interface the class derives capabilities from,
directly or transitively (glossary entry for Ancestor). -/
def getAncestors (g : Graph) (t : TypeNode) : List TypeNode :=
  ancestorsFrom g (ancestorFuel g t * (ancestorFuel g t + 1)) (directBases t) [t.fqn]

/-- `const hasMultipleBases = type.interfaces.length > (type.base ? 0 : 1)`. -/
def hasMultipleBases (t : TypeNode) : Bool :=
  t.interfaces.length > (match t.base with | some _ => 0 | none => 1)

/-- The flattening condition of the `GoClass` constructor: more than one
base and some (transitive) ancestor from a different assembly. -/
def requiresFlattening (g : Graph) (t : TypeNode) : Bool :=
  hasMultipleBases t &&
    (getAncestors g t).any (fun ancestor => ancestor.assemblyFqn != t.assemblyFqn)

/-- Follows the specification wording (claim C1): more than one direct
base contribution — total direct bases > 1 with a base class, > 1
interfaces without — and some ancestor, transitive ones included, from a
different originating assembly. -/
def specRequiresFlattening (g : Graph) (t : TypeNode) : Bool :=
  (match t.base with
   | some _ => decide (1 + t.interfaces.length > 1)
   | none => decide (t.interfaces.length > 1)) &&
    (getAncestors g t).any (fun ancestor => ancestor.assemblyFqn != t.assemblyFqn)

/-- Ordered insertion step of the name sort. -/
def insertByKey (k : α → String) (x : α) : List α → List α
  | [] => [x]
  | y :: ys => if strLe (k x) (k y) then x :: y :: ys else y :: insertByKey k x ys

/-- `Array.prototype.sort` with a key comparator (`comparators.byName`,
or the fqn comparator of `implements`), modelled as insertion sort on
the key under `strLe`. -/
def sortByKey (k : α → String) : List α → List α
  | [] => []
  | x :: xs => insertByKey k x (sortByKey k xs)

/-- First-occurrence deduplication by member name, carrying the set of
names already seen. -/
def dedupeAux : List String → List Member → List Member
  | _, [] => []
  | seen, m :: ms =>
    if m.name ∈ seen then dedupeAux seen ms
    else m :: dedupeAux (m.name :: seen) ms

/-- Modelled from the spec: the deduplication invariant of the
AncestorSet — a member reaching the class through several paths is one
logical member, never duplicated. -/
def dedupeByName (l : List Member) : List Member := dedupeAux [] l

/-- Modelled from the spec: `type.allMethods` of the reflected model —
the class's own methods together with every method contributed by an
ancestor, one logical member per name. -/
def allMethods (g : Graph) (t : TypeNode) : List Member :=
  dedupeByName (t.ownMethods ++ (getAncestors g t).flatMap TypeNode.ownMethods)

/-- Modelled from the spec: `type.allProperties` of the reflected model,
as for `allMethods`. -/
def allProperties (g : Graph) (t : TypeNode) : List Member :=
  dedupeByName (t.ownProperties ++ (getAncestors g t).flatMap TypeNode.ownProperties)

/-- Sorted list of the class's own instance methods (`this.methods`). -/
def instanceMethods (t : TypeNode) : List Member :=
  sortByKey Member.name (t.ownMethods.filter (fun m => !m.isStatic))

/-- Sorted list of the class's own static methods (`this.staticMethods`). -/
def ownStaticMethods (t : TypeNode) : List Member :=
  sortByKey Member.name (t.ownMethods.filter (fun m => m.isStatic))

/-- Sorted list of the class's own instance properties (`this.properties`). -/
def instanceProperties (t : TypeNode) : List Member :=
  sortByKey Member.name (t.ownProperties.filter (fun m => !m.isStatic))

/-- Sorted list of the class's own static properties
(`this.staticProperties`). -/
def ownStaticProperties (t : TypeNode) : List Member :=
  sortByKey Member.name (t.ownProperties.filter (fun m => m.isStatic))

/-- The re-implemented method list built by the `GoClass` constructor
when flattening is required (`this.reimplementedMethods`). -/
def reimplementedMethods (g : Graph) (t : TypeNode) : Option (List Member) :=
  if requiresFlattening g t then
    some (sortByKey Member.name
      ((allMethods g t).filter
        (fun m => !m.isStatic && m.definingType != t.fqn)))
  else none

/-- The re-implemented property list built by the `GoClass` constructor
when flattening is required (`this.reimplementedProperties`). -/
def reimplementedProperties (g : Graph) (t : TypeNode) : Option (List Member) :=
  if requiresFlattening g t then
    some (sortByKey Member.name
      ((allProperties g t).filter
        (fun m => !m.isStatic && m.definingType != t.fqn)))
  else none

/-- `get extends` after resolution: the base class node, looked up in the
root package (`this.pkg.root.findType(this.type.base.fqn)`); `none` both
for "no base" and for an unresolvable base reference. -/
def extendsC (g : Graph) (t : TypeNode) : Option TypeNode :=
  match t.base with
  | none => none
  | some f => findType g f

/-- `get implements` after resolution: the directly implemented
interfaces, resolved and sorted by fqn (`localeCompare` modelled as
`strLe`); unresolvable references are dropped. -/
def implementsC (g : Graph) (t : TypeNode) : List TypeNode :=
  sortByKey TypeNode.fqn (t.interfaces.filterMap (findType g))

/-- A field of the emitted proxy struct: the padding byte, an embedded
proxy struct (same package) or an embedded capability interface
(foreign package). -/
inductive StructField where
  | padding : StructField
  | embedProxy : String → StructField
  | embedIface : String → StructField
  deriving DecidableEq, Repr

/-- Choice of embedded representation for one ancestor, as in
`emitStruct`: proxy struct when the ancestor lives in the same package,
scoped capability interface otherwise. -/
def embedField (t anc : TypeNode) : StructField :=
  if anc.pkgName == t.pkgName then StructField.embedProxy anc.fqn
  else StructField.embedIface anc.fqn

/-- The fields of the proxy struct emitted by `emitStruct`. -/
def structFields (g : Graph) (t : TypeNode) : List StructField :=
  if (extendsC g t).isNone && (implementsC g t).isEmpty then [StructField.padding]
  else
    (match extendsC g t with
     | some b => [embedField t b]
     | none => []) ++ (implementsC g t).map (embedField t)

/-- One emitted declaration of a class projection. -/
inductive Decl where
  | iface : String → List String → List String → Decl
  | proxyStruct : List StructField → Decl
  | getterProxy : String → Decl
  | setterProxy : String → Decl
  | ctorFunc : String → List String → String → Decl
  | staticMethodFunc : String → Decl
  | staticGetFunc : String → Decl
  | staticSetFunc : String → Decl
  | methodImpl : String → Decl
  deriving DecidableEq, Repr

/-- Modelled from the spec: the capability declarations a property
contributes to the interface — a getter, plus a setter iff the property
is not read-only (the member emitters live outside the analysed
sources). -/
def propIfaceDecls (p : Member) : List String :=
  [p.name] ++ (if p.immutable then [] else ["Set" ++ p.name])

/-- The member declarations of the capability interface: own instance
properties, then own instance methods. -/
def ifaceMemberDecls (t : TypeNode) : List String :=
  (instanceProperties t).flatMap propIfaceDecls ++ (instanceMethods t).map Member.name

/-- The embedded interfaces of the capability interface: the base
class's capability interface (if any), then those of the implemented
interfaces. -/
def ifaceEmbeds (g : Graph) (t : TypeNode) : List String :=
  (match extendsC g t with
   | some b => [b.fqn]
   | none => []) ++ (implementsC g t).map TypeNode.fqn

/-- The capability interface emitted by `emitInterface`. -/
def emitInterfaceD (g : Graph) (t : TypeNode) : Decl :=
  Decl.iface t.name (ifaceEmbeds g t) (ifaceMemberDecls t)

/-- The getter proxies emitted by `emitGetters`: nothing at all when the
class has no own instance properties, otherwise a getter proxy per own
instance property and per re-implemented property. -/
def emitGettersD (g : Graph) (t : TypeNode) : List Decl :=
  if (instanceProperties t).isEmpty then []
  else
    (instanceProperties t).map (fun p => Decl.getterProxy p.name) ++
      ((reimplementedProperties g t).getD []).map (fun p => Decl.getterProxy p.name)

/-- Setter proxies for a property list: one per mutable property
(modelled from the spec: setter emission iff not read-only). -/
def setterProxyDecls (l : List Member) : List Decl :=
  l.flatMap (fun p => if p.immutable then [] else [Decl.setterProxy p.name])

/-- The setter proxies emitted by `emitSetters`: own instance
properties, then re-implemented properties, with no emptiness guard. -/
def emitSettersD (g : Graph) (t : TypeNode) : List Decl :=
  setterProxyDecls (instanceProperties t) ++
    setterProxyDecls ((reimplementedProperties g t).getD [])

/-- The free functions emitted by `emitStaticProperty` for the static
properties: a getter function named `Type_Prop`, plus a setter function
`Type_SetProp` when the property is mutable. -/
def staticPropFuncs (t : TypeNode) : List Decl :=
  (ownStaticProperties t).flatMap (fun p =>
    [Decl.staticGetFunc (t.name ++ "_" ++ p.name)] ++
      (if p.immutable then [] else [Decl.staticSetFunc (t.name ++ "_Set" ++ p.name)]))

/-- The full declaration list emitted by `GoClass.emit`, in source
order: interface, proxy struct, getters, constructor, setters, static
methods, static properties, instance methods, re-implemented methods. -/
def emitClass (g : Graph) (t : TypeNode) : List Decl :=
  [emitInterfaceD g t, Decl.proxyStruct (structFields g t)] ++
    emitGettersD g t ++
    (if t.hasInitializer then
      [Decl.ctorFunc ("New" ++ t.name) t.initializerParams t.name]
    else []) ++
    emitSettersD g t ++
    (ownStaticMethods t).map (fun m => Decl.staticMethodFunc (t.name ++ "_" ++ m.name)) ++
    staticPropFuncs t ++
    (instanceMethods t).map (fun m => Decl.methodImpl m.name) ++
    ((reimplementedMethods g t).getD []).map (fun m => Decl.methodImpl m.name)

/-- Recognizer for the emitted construction function. -/
def isCtorDecl : Decl → Bool
  | Decl.ctorFunc _ _ _ => true
  | _ => false

/-- Recognizer for the emitted capability interface. -/
def isIfaceDecl : Decl → Bool
  | Decl.iface _ _ _ => true
  | _ => false

/-- Recognizer for a getter proxy. -/
def isGetterProxyDecl : Decl → Bool
  | Decl.getterProxy _ => true
  | _ => false

/-- Recognizer for a free function generated from a static member. -/
def isStaticFuncDecl : Decl → Bool
  | Decl.staticMethodFunc _ => true
  | Decl.staticGetFunc _ => true
  | Decl.staticSetFunc _ => true
  | _ => false

/-- The class with its static own members removed; used to state that
the capability interface is independent of static members. -/
def scrubStatics (t : TypeNode) : TypeNode :=
  { t with
    ownMethods := t.ownMethods.filter (fun m => !m.isStatic)
    ownProperties := t.ownProperties.filter (fun m => !m.isStatic) }

/-- Computation events observable on a `GoClass`: the projection plan
being computed, and the lazy resolution of the base class and of the
implemented interfaces. -/
inductive CompEvent where
  | planComputed : CompEvent
  | baseResolved : CompEvent
  | ifacesResolved : CompEvent
  deriving DecidableEq, Repr

/-- The mutable state of a `GoClass` instance: the eagerly computed
re-implementation lists and the two lazily filled caches (`_extends`,
`_implements`); `none` models the `undefined` (not yet computed) cache
state, `some none` a cached `null`. -/
structure GoClassState where
  node : TypeNode
  reimplMethods : Option (List Member)
  reimplProps : Option (List Member)
  extendsCache : Option (Option String)
  implementsCache : Option (List String)
  deriving DecidableEq, Repr

/-- The `GoClass` constructor: computes the member lists and, when
flattening is required, the re-implementation lists; leaves both lazy
caches unfilled.  The second component records which computations ran
during construction. -/
def mkGoClass (g : Graph) (t : TypeNode) : GoClassState × List CompEvent :=
  ({ node := t
     reimplMethods := reimplementedMethods g t
     reimplProps := reimplementedProperties g t
     extendsCache := none
     implementsCache := none },
   if requiresFlattening g t then [CompEvent.planComputed] else [])

/-- The `extends` getter: on first access resolves the base reference
and fills the cache, afterwards answers from the cache.  Returns the
value, the updated state and the computations that ran. -/
def getExtendsSt (g : Graph) (s : GoClassState) :
    Option String × GoClassState × List CompEvent :=
  match s.extendsCache with
  | some v => (v, s, [])
  | none =>
    let v : Option String :=
      match s.node.base with
      | none => none
      | some f => (findType g f).map TypeNode.fqn
    (v, { s with extendsCache := some v }, [CompEvent.baseResolved])

/-- The `implements` getter: on first access resolves and sorts the
interface references and fills the cache, afterwards answers from the
cache. -/
def getImplementsSt (g : Graph) (s : GoClassState) :
    List String × GoClassState × List CompEvent :=
  match s.implementsCache with
  | some v => (v, s, [])
  | none =>
    let v := (sortByKey TypeNode.fqn (s.node.interfaces.filterMap (findType g))).map
      TypeNode.fqn
    (v, { s with implementsCache := some v }, [CompEvent.ifacesResolved])

/-- The base-class chain of a class, nearest base first, as walked
through resolved base references. -/
def baseChainAux (g : Graph) : Nat → Option String → List TypeNode
  | 0, _ => []
  | _ + 1, none => []
  | n + 1, some f =>
    match findType g f with
    | none => []
    | some b => b :: baseChainAux g n b.base

/-- The base-class chain of a class. -/
def baseChain (g : Graph) (t : TypeNode) : List TypeNode :=
  baseChainAux g (g.length + 1) t.base

/-- Follows the claim wording (C2): the inherited non-static members,
base-chain-inherited members first, then interface-inherited members,
each group sorted by name. -/
def claimPlanMethods (g : Graph) (t : TypeNode) : List Member :=
  let inh := (allMethods g t).filter (fun m => !m.isStatic && m.definingType != t.fqn)
  let isBase := fun (m : Member) =>
    (baseChain g t).any (fun b => b.fqn == m.definingType)
  sortByKey Member.name (inh.filter isBase) ++
    sortByKey Member.name (inh.filter (fun m => !isBase m))

/-- Follows the claim wording (C4): proxy struct fields with the base
class first and the implemented interfaces in declared order. -/
def claimStructFields (g : Graph) (t : TypeNode) : List StructField :=
  (match extendsC g t with
   | some b => [embedField t b]
   | none => []) ++ (t.interfaces.filterMap (findType g)).map (embedField t)

/-- The amended C4 wording: proxy struct fields with the base class
first and the implemented interfaces sorted by fqn. -/
def claimStructFieldsSorted (g : Graph) (t : TypeNode) : List StructField :=
  (match extendsC g t with
   | some b => [embedField t b]
   | none => []) ++
    (sortByKey TypeNode.fqn (t.interfaces.filterMap (findType g))).map (embedField t)

end JsiiGo

namespace JsiiDiff

/-- The outcome of `loadAssembly` for one argument of the jsii-diff
command line: a loaded assembly (name and version) or a download
failure with its reason. -/
inductive LoadOutcome where
  | ok : String → String → LoadOutcome
  | downloadFailure : String → LoadOutcome
  deriving DecidableEq, Repr

/-- Whether a load attempt failed to download. -/
def LoadOutcome.failed : LoadOutcome → Bool
  | LoadOutcome.ok _ _ => false
  | LoadOutcome.downloadFailure _ => true

/-- The observable stderr output of `main`: the "Skipping analysis"
notice, the different-assembly warning, and the incompatible-changes
report. -/
inductive OutLine where
  | skipNotice : String → OutLine
  | nameWarning : OutLine
  | incompatibleReport : Nat → OutLine
  deriving DecidableEq, Repr

/-- Recognizer for the "Skipping analysis" notice. -/
def isSkipNotice : OutLine → Bool
  | OutLine.skipNotice _ => true
  | _ => false

/-- The jsii-diff `main` function, over the load outcomes of the two
assemblies and the mismatch count `compareAssemblies` would report for
them (the comparison itself lives outside the analysed sources).
Returns the exit code and the stderr output. -/
def mainModel (orig upd : LoadOutcome) (mismatchCount : Nat) : Nat × List OutLine :=
  match orig with
  | LoadOutcome.downloadFailure r => (0, [OutLine.skipNotice r])
  | LoadOutcome.ok origName _ =>
    match upd with
    | LoadOutcome.downloadFailure r => (0, [OutLine.skipNotice r])
    | LoadOutcome.ok updName _ =>
      let warn := if origName != updName then [OutLine.nameWarning] else []
      if mismatchCount > 0 then
        (1, warn ++ [OutLine.incompatibleReport mismatchCount])
      else (0, warn)

end JsiiDiff

namespace JsiiGo

/-- Fixture helper: an instance method member. -/
def mkMethod (n dt : String) : Member :=
  { name := n, isStatic := false, immutable := true, definingType := dt }

/-- Fixture helper: an instance property member. -/
def mkProp (n dt : String) (im : Bool) : Member :=
  { name := n, isStatic := false, immutable := im, definingType := dt }

/-- Fixture: class `Base` of assembly `modA` with one method `Zoom`. -/
def nodeBase : TypeNode :=
  { fqn := "modA.Base", name := "Base", assemblyFqn := "modA", pkgName := "moda"
    base := none, interfaces := [], ownMethods := [mkMethod "Zoom" "modA.Base"]
    ownProperties := [], hasInitializer := false, initializerParams := [] }

/-- Fixture: interface `Mixin` of assembly `modB` with one method
`Arrive`. -/
def nodeMixin : TypeNode :=
  { fqn := "modB.Mixin", name := "Mixin", assemblyFqn := "modB", pkgName := "modb"
    base := none, interfaces := [], ownMethods := [mkMethod "Arrive" "modB.Mixin"]
    ownProperties := [], hasInitializer := false, initializerParams := [] }

/-- Fixture: class `Widget` of assembly `modA`, extending `Base` and
implementing `Mixin`, with a one-parameter initializer. -/
def nodeWidget : TypeNode :=
  { fqn := "modA.Widget", name := "Widget", assemblyFqn := "modA", pkgName := "moda"
    base := some "modA.Base", interfaces := ["modB.Mixin"], ownMethods := []
    ownProperties := [], hasInitializer := true, initializerParams := ["x"] }

/-- Fixture: a class with a single direct ancestor (one interface, no
base). -/
def nodeSingle : TypeNode :=
  { fqn := "modA.Single", name := "Single", assemblyFqn := "modA", pkgName := "moda"
    base := none, interfaces := ["modB.Mixin"], ownMethods := []
    ownProperties := [], hasInitializer := false, initializerParams := [] }

/-- Fixture graph around `Widget`. -/
def widgetGraph : Graph := [nodeBase, nodeMixin, nodeWidget, nodeSingle]

/-- Fixture: class `PropBase` of assembly `modA` with one mutable
property `Value`. -/
def nodePropBase : TypeNode :=
  { fqn := "modA.PropBase", name := "PropBase", assemblyFqn := "modA", pkgName := "moda"
    base := none, interfaces := [], ownMethods := []
    ownProperties := [mkProp "Value" "modA.PropBase" false]
    hasInitializer := false, initializerParams := [] }

/-- Fixture: interface `PropMixin` of assembly `modB` with one read-only
property `Label`. -/
def nodePropMixin : TypeNode :=
  { fqn := "modB.PropMixin", name := "PropMixin", assemblyFqn := "modB", pkgName := "modb"
    base := none, interfaces := [], ownMethods := []
    ownProperties := [mkProp "Label" "modB.PropMixin" true]
    hasInitializer := false, initializerParams := [] }

/-- Fixture: class `Gadget` of assembly `modA`, extending `PropBase` and
implementing `PropMixin`, with no own members — a flattening-required
class whose own instance property list is empty. -/
def nodeGadget : TypeNode :=
  { fqn := "modA.Gadget", name := "Gadget", assemblyFqn := "modA", pkgName := "moda"
    base := some "modA.PropBase", interfaces := ["modB.PropMixin"], ownMethods := []
    ownProperties := [], hasInitializer := false, initializerParams := [] }

/-- Fixture graph around `Gadget`. -/
def gadgetGraph : Graph := [nodePropBase, nodePropMixin, nodeGadget]

/-- Fixture: interface `Zebra`, fqn late in sort order. -/
def nodeZebra : TypeNode :=
  { fqn := "moda.Zebra", name := "Zebra", assemblyFqn := "modA", pkgName := "moda"
    base := none, interfaces := [], ownMethods := [], ownProperties := []
    hasInitializer := false, initializerParams := [] }

/-- Fixture: interface `Ant`, fqn early in sort order. -/
def nodeAnt : TypeNode :=
  { fqn := "moda.Ant", name := "Ant", assemblyFqn := "modA", pkgName := "moda"
    base := none, interfaces := [], ownMethods := [], ownProperties := []
    hasInitializer := false, initializerParams := [] }

/-- Fixture: class `Carrier` declaring its interfaces in the order
`Zebra`, then `Ant`. -/
def nodeCarrier : TypeNode :=
  { fqn := "moda.Carrier", name := "Carrier", assemblyFqn := "modA", pkgName := "moda"
    base := none, interfaces := ["moda.Zebra", "moda.Ant"], ownMethods := []
    ownProperties := [], hasInitializer := false, initializerParams := [] }

/-- Fixture graph around `Carrier`. -/
def carrierGraph : Graph := [nodeZebra, nodeAnt, nodeCarrier]

/-- Fixture: class `Counter` with one mutable static property `Total`. -/
def nodeCounter : TypeNode :=
  { fqn := "moda.Counter", name := "Counter", assemblyFqn := "modA", pkgName := "moda"
    base := none, interfaces := [], ownMethods := []
    ownProperties :=
      [{ name := "Total", isStatic := true, immutable := false
         definingType := "moda.Counter" }]
    hasInitializer := false, initializerParams := [] }

/-- Fixture graph around `Counter`. -/
def counterGraph : Graph := [nodeCounter]

end JsiiGo

namespace JsiiGo

theorem charsLe_total (a b : List Char) : charsLe a b = true ∨ charsLe b a = true := by
  induction a generalizing b with
  | nil => left; rfl
  | cons x xs ih =>
    cases b with
    | nil => right; rfl
    | cons y ys =>
      simp only [charsLe]
      rcases Nat.lt_trichotomy x.val.toNat y.val.toNat with h | h | h
      · left; simp [h]
      · have h1 : ¬ x.val.toNat < y.val.toNat := by omega
        have h2 : ¬ y.val.toNat < x.val.toNat := by omega
        rcases ih ys with hc | hc
        · left; simp [h1, h2, hc]
        · right; simp [h1, h2, hc]
      · right; simp [h, Nat.lt_asymm h]

theorem charsLe_trans {a b c : List Char} (hab : charsLe a b = true)
    (hbc : charsLe b c = true) : charsLe a c = true := by
  induction a generalizing b c with
  | nil => rfl
  | cons x xs ih =>
    cases b with
    | nil => simp [charsLe] at hab
    | cons y ys =>
      cases c with
      | nil => simp [charsLe] at hbc
      | cons z zs =>
        simp only [charsLe] at hab hbc ⊢
        by_cases hxy : x.val.toNat < y.val.toNat
        · by_cases hyz : y.val.toNat < z.val.toNat
          · have : x.val.toNat < z.val.toNat := Nat.lt_trans hxy hyz
            simp [this]
          · by_cases hzy : z.val.toNat < y.val.toNat
            · simp [hyz, hzy] at hbc
            · have : x.val.toNat < z.val.toNat := by omega
              simp [this]
        · by_cases hyx : y.val.toNat < x.val.toNat
          · simp [hxy, hyx] at hab
          · have hxy2 : x.val.toNat = y.val.toNat := by omega
            by_cases hyz : y.val.toNat < z.val.toNat
            · have : x.val.toNat < z.val.toNat := by omega
              simp [this]
            · by_cases hzy : z.val.toNat < y.val.toNat
              · simp [hyz, hzy] at hbc
              · have h1 : ¬ x.val.toNat < z.val.toNat := by omega
                have h2 : ¬ z.val.toNat < x.val.toNat := by omega
                simp only [hxy, hyx, if_neg, ite_false, if_false] at hab
                simp only [hyz, hzy, if_neg, ite_false, if_false] at hbc
                simp [h1, h2, ih hab hbc]

theorem strLe_total (a b : String) : strLe a b = true ∨ strLe b a = true :=
  charsLe_total a.data b.data

theorem strLe_trans {a b c : String} (hab : strLe a b = true)
    (hbc : strLe b c = true) : strLe a c = true :=
  charsLe_trans hab hbc

theorem mem_insertByKey (k : α → String) (x : α) (l : List α) (a : α) :
    a ∈ insertByKey k x l ↔ a = x ∨ a ∈ l := by
  induction l with
  | nil => simp [insertByKey]
  | cons y ys ih =>
    simp only [insertByKey]
    by_cases h : strLe (k x) (k y) = true
    · rw [if_pos h]; simp [List.mem_cons]
    · rw [if_neg h]
      simp only [List.mem_cons, ih]
      tauto

theorem perm_insertByKey (k : α → String) (x : α) (l : List α) :
    (insertByKey k x l).Perm (x :: l) := by
  induction l with
  | nil => simp [insertByKey]
  | cons y ys ih =>
    simp only [insertByKey]
    by_cases h : strLe (k x) (k y) = true
    · simp [h]
    · simp only [h, if_false]
      exact (ih.cons y).trans (List.Perm.swap x y ys)

theorem perm_sortByKey (k : α → String) (l : List α) :
    (sortByKey k l).Perm l := by
  induction l with
  | nil => simp [sortByKey]
  | cons x xs ih =>
    exact (perm_insertByKey k x (sortByKey k xs)).trans (ih.cons x)

theorem mem_sortByKey (k : α → String) (l : List α) (a : α) :
    a ∈ sortByKey k l ↔ a ∈ l :=
  (perm_sortByKey k l).mem_iff

theorem pairwise_insertByKey (k : α → String) (x : α) (l : List α)
    (hl : l.Pairwise (fun a b => strLe (k a) (k b) = true)) :
    (insertByKey k x l).Pairwise (fun a b => strLe (k a) (k b) = true) := by
  induction l with
  | nil => simp [insertByKey]
  | cons y ys ih =>
    simp only [insertByKey]
    rcases List.pairwise_cons.mp hl with ⟨hy, hys⟩
    by_cases h : strLe (k x) (k y) = true
    · rw [if_pos h]
      refine List.pairwise_cons.mpr ⟨?_, hl⟩
      intro b hb
      rcases List.mem_cons.mp hb with rfl | hb
      · exact h
      · exact strLe_trans h (hy b hb)
    · have hyx : strLe (k y) (k x) = true := by
        rcases strLe_total (k x) (k y) with h1 | h1
        · exact absurd h1 h
        · exact h1
      rw [if_neg h]
      refine List.pairwise_cons.mpr ⟨?_, ih hys⟩
      intro b hb
      rcases (mem_insertByKey k x ys b).mp hb with rfl | hb
      · exact hyx
      · exact hy b hb

theorem pairwise_sortByKey (k : α → String) (l : List α) :
    (sortByKey k l).Pairwise (fun a b => strLe (k a) (k b) = true) := by
  induction l with
  | nil => simp [sortByKey]
  | cons x xs ih => exact pairwise_insertByKey k x (sortByKey k xs) ih

theorem nodup_map_name_dedupeAux (seen : List String) (l : List Member) :
    ((dedupeAux seen l).map Member.name).Nodup ∧
      ∀ m ∈ dedupeAux seen l, m.name ∉ seen := by
  induction l generalizing seen with
  | nil => simp [dedupeAux]
  | cons m ms ih =>
    simp only [dedupeAux]
    by_cases h : m.name ∈ seen
    · simp only [h, if_true]
      exact (ih seen)
    · simp only [h, if_false, List.map_cons, List.nodup_cons]
      rcases ih (m.name :: seen) with ⟨h1, h2⟩
      refine ⟨⟨?_, h1⟩, ?_⟩
      · intro hmem
        rcases List.mem_map.mp hmem with ⟨b, hb, hbn⟩
        exact (h2 b hb) (by simp [hbn])
      · intro b hb
        rcases List.mem_cons.mp hb with rfl | hb
        · exact h
        · intro hbs
          exact (h2 b hb) (List.mem_cons_of_mem _ hbs)

theorem nodup_map_name_dedupeByName (l : List Member) :
    ((dedupeByName l).map Member.name).Nodup :=
  (nodup_map_name_dedupeAux [] l).1

end JsiiGo

namespace JsiiGo

theorem nodup_names_sortByKey_filter (p : Member → Bool) (l : List Member)
    (h : (l.map Member.name).Nodup) :
    ((sortByKey Member.name (l.filter p)).map Member.name).Nodup := by
  have h1 : (l.filter p).Sublist l := List.filter_sublist l
  have h2 : ((l.filter p).map Member.name).Sublist (l.map Member.name) := h1.map _
  have h3 : ((l.filter p).map Member.name).Nodup := h2.nodup h
  exact (((perm_sortByKey Member.name (l.filter p)).map Member.name).symm.nodup h3)

/-- C1: flattening is required exactly under the spec's ambiguity
detection rule — more than one direct base contribution (total direct
bases > 1 with a base class, > 1 interfaces without) together with some
ancestor, transitive ones included, from a different originating
assembly — and a class with exactly one direct ancestor total never
requires flattening. -/
theorem c1_flattening_threshold (g : Graph) (t : TypeNode) :
    requiresFlattening g t = specRequiresFlattening g t ∧
      ((directBases t).length = 1 → requiresFlattening g t = false) := by
  have hmb : hasMultipleBases t =
      (match t.base with
       | some _ => decide (1 + t.interfaces.length > 1)
       | none => decide (t.interfaces.length > 1)) := by
    unfold hasMultipleBases
    cases t.base with
    | none => rfl
    | some b =>
      change decide (t.interfaces.length > 0) = decide (1 + t.interfaces.length > 1)
      exact decide_eq_decide.mpr (by omega)
  constructor
  · unfold requiresFlattening specRequiresFlattening
    rw [hmb]
  · intro h
    unfold directBases at h
    have hfalse : hasMultipleBases t = false := by
      unfold hasMultipleBases
      cases hb : t.base with
      | none =>
        rw [hb] at h
        simp only [List.nil_append] at h
        simp [h]
      | some b =>
        rw [hb] at h
        simp only [List.length_append, List.length_cons, List.length_nil] at h
        have : t.interfaces.length = 0 := by omega
        simp [this]
    unfold requiresFlattening
    rw [hfalse]
    rfl

/-- Witness for C1 at the fixture class with a single direct
ancestor. -/
theorem c1_flattening_threshold_witness :
    requiresFlattening widgetGraph nodeSingle =
        specRequiresFlattening widgetGraph nodeSingle ∧
      requiresFlattening widgetGraph nodeSingle = false :=
  ⟨(c1_flattening_threshold widgetGraph nodeSingle).1,
   (c1_flattening_threshold widgetGraph nodeSingle).2 (by decide)⟩

/-- C2 counterexample: for `Widget` (base `Base` of the same assembly
with method `Zoom`, interface `Mixin` of a foreign assembly with method
`Arrive`) the emitted re-implementation list is the flat name-sorted
list `[Arrive, Zoom]`, not the claimed base-chain-first grouping
`[Zoom, Arrive]`. -/
theorem c2_reimplementation_order_counterexample :
    reimplementedMethods widgetGraph nodeWidget ≠
      some (claimPlanMethods widgetGraph nodeWidget) := by decide

/-- C2 (amended): for every class requiring flattening, the
re-implementation lists enumerate exactly the non-static members whose
defining type is not the class itself, each exactly once, each list
(methods; properties) sorted by name as one flat list regardless of
whether a member is base-chain- or interface-inherited. -/
theorem c2_reimplementation_lists (g : Graph) (t : TypeNode)
    (h : requiresFlattening g t = true) :
    ∃ lm lp,
      reimplementedMethods g t = some lm ∧
      reimplementedProperties g t = some lp ∧
      (∀ m, m ∈ lm ↔
        m ∈ allMethods g t ∧ m.isStatic = false ∧ m.definingType ≠ t.fqn) ∧
      (∀ m, m ∈ lp ↔
        m ∈ allProperties g t ∧ m.isStatic = false ∧ m.definingType ≠ t.fqn) ∧
      (lm.map Member.name).Nodup ∧ (lp.map Member.name).Nodup ∧
      lm.Pairwise (fun a b => strLe a.name b.name = true) ∧
      lp.Pairwise (fun a b => strLe a.name b.name = true) := by
  refine ⟨sortByKey Member.name ((allMethods g t).filter
      (fun m => !m.isStatic && m.definingType != t.fqn)),
    sortByKey Member.name ((allProperties g t).filter
      (fun m => !m.isStatic && m.definingType != t.fqn)),
    ?_, ?_, ?_, ?_, ?_, ?_, ?_, ?_⟩
  · unfold reimplementedMethods
    rw [if_pos h]
  · unfold reimplementedProperties
    rw [if_pos h]
  · intro m
    rw [mem_sortByKey, List.mem_filter]
    simp [Bool.and_eq_true, Bool.not_eq_true', bne_iff_ne]
  · intro m
    rw [mem_sortByKey, List.mem_filter]
    simp [Bool.and_eq_true, Bool.not_eq_true', bne_iff_ne]
  · exact nodup_names_sortByKey_filter _ _ (nodup_map_name_dedupeByName _)
  · exact nodup_names_sortByKey_filter _ _ (nodup_map_name_dedupeByName _)
  · exact pairwise_sortByKey _ _
  · exact pairwise_sortByKey _ _

/-- Witness for C2 (amended) at the `Widget` fixture. -/
theorem c2_reimplementation_lists_witness :
    requiresFlattening widgetGraph nodeWidget = true ∧
      ∃ lm lp,
        reimplementedMethods widgetGraph nodeWidget = some lm ∧
        reimplementedProperties widgetGraph nodeWidget = some lp ∧
        (∀ m, m ∈ lm ↔
          m ∈ allMethods widgetGraph nodeWidget ∧ m.isStatic = false ∧
            m.definingType ≠ nodeWidget.fqn) ∧
        (∀ m, m ∈ lp ↔
          m ∈ allProperties widgetGraph nodeWidget ∧ m.isStatic = false ∧
            m.definingType ≠ nodeWidget.fqn) ∧
        (lm.map Member.name).Nodup ∧ (lp.map Member.name).Nodup ∧
        lm.Pairwise (fun a b => strLe a.name b.name = true) ∧
        lp.Pairwise (fun a b => strLe a.name b.name = true) :=
  ⟨by decide, c2_reimplementation_lists widgetGraph nodeWidget (by decide)⟩

/-- C3 (code bug evidence): `Gadget` requires flattening and its
projection plan re-implements the properties `Label` and `Value`, yet
because the class has no own instance property `emitGetters` returns
early: no getter proxy is emitted at all, while the setter proxy of the
mutable re-implemented property `Value` is still emitted. -/
theorem c3_missing_reimplemented_getters :
    requiresFlattening gadgetGraph nodeGadget = true ∧
      reimplementedProperties gadgetGraph nodeGadget =
        some [mkProp "Label" "modB.PropMixin" true,
          mkProp "Value" "modA.PropBase" false] ∧
      emitGettersD gadgetGraph nodeGadget = [] ∧
      (emitClass gadgetGraph nodeGadget).filter isGetterProxyDecl = [] ∧
      emitSettersD gadgetGraph nodeGadget = [Decl.setterProxy "Value"] := by decide


theorem filter_map_decl_eq_nil {β : Type} (f : β → Decl) (q : Decl → Bool)
    (l : List β) (h : ∀ b, q (f b) = false) : (l.map f).filter q = [] := by
  induction l with
  | nil => rfl
  | cons x xs ih => simp [List.filter_cons, h, ih]

theorem filter_map_decl_eq_self {β : Type} (f : β → Decl) (q : Decl → Bool)
    (l : List β) (h : ∀ b, q (f b) = true) : (l.map f).filter q = l.map f := by
  induction l with
  | nil => rfl
  | cons x xs ih => simp [List.filter_cons, h, ih]

theorem filter_flatMap_decl_eq_nil {β : Type} (f : β → List Decl) (q : Decl → Bool)
    (l : List β) (h : ∀ b, (f b).filter q = []) : (l.flatMap f).filter q = [] := by
  induction l with
  | nil => rfl
  | cons x xs ih => rw [List.flatMap_cons, List.filter_append, h, ih, List.nil_append]

theorem filter_flatMap_decl_eq_self {β : Type} (f : β → List Decl) (q : Decl → Bool)
    (l : List β) (h : ∀ b, (f b).filter q = f b) : (l.flatMap f).filter q = l.flatMap f := by
  induction l with
  | nil => rfl
  | cons x xs ih => rw [List.flatMap_cons, List.filter_append, h, ih]

theorem filter_emitGetters_eq_nil (g : Graph) (t : TypeNode) (q : Decl → Bool)
    (h : ∀ s, q (Decl.getterProxy s) = false) :
    (emitGettersD g t).filter q = [] := by
  unfold emitGettersD
  by_cases hp : (instanceProperties t).isEmpty = true
  · rw [if_pos hp]
    rfl
  · rw [if_neg hp, List.filter_append,
      filter_map_decl_eq_nil (fun p => Decl.getterProxy p.name) q
        (instanceProperties t) (fun b => h b.name),
      filter_map_decl_eq_nil (fun p => Decl.getterProxy p.name) q
        ((reimplementedProperties g t).getD []) (fun b => h b.name),
      List.nil_append]

theorem filter_setterProxyDecls_eq_nil (q : Decl → Bool)
    (h : ∀ s, q (Decl.setterProxy s) = false) (l : List Member) :
    (setterProxyDecls l).filter q = [] := by
  unfold setterProxyDecls
  refine filter_flatMap_decl_eq_nil _ _ _ ?_
  intro b
  cases hb : b.immutable <;> simp [hb, List.filter_cons, h]

theorem filter_emitSetters_eq_nil (g : Graph) (t : TypeNode) (q : Decl → Bool)
    (h : ∀ s, q (Decl.setterProxy s) = false) :
    (emitSettersD g t).filter q = [] := by
  unfold emitSettersD
  rw [List.filter_append, filter_setterProxyDecls_eq_nil q h,
    filter_setterProxyDecls_eq_nil q h, List.nil_append]

theorem filter_staticPropFuncs_eq_nil (t : TypeNode) (q : Decl → Bool)
    (hg : ∀ s, q (Decl.staticGetFunc s) = false)
    (hs : ∀ s, q (Decl.staticSetFunc s) = false) :
    (staticPropFuncs t).filter q = [] := by
  unfold staticPropFuncs
  refine filter_flatMap_decl_eq_nil _ _ _ ?_
  intro b
  cases hb : b.immutable <;>
    simp [hb, List.filter_cons, List.filter_append, hg, hs]

theorem filter_emitClass_eq (g : Graph) (t : TypeNode) (q : Decl → Bool) :
    (emitClass g t).filter q =
      ([emitInterfaceD g t, Decl.proxyStruct (structFields g t)]).filter q ++
        (emitGettersD g t).filter q ++
        ((if t.hasInitializer then
            [Decl.ctorFunc ("New" ++ t.name) t.initializerParams t.name]
          else []) : List Decl).filter q ++
        (emitSettersD g t).filter q ++
        ((ownStaticMethods t).map
          (fun m => Decl.staticMethodFunc (t.name ++ "_" ++ m.name))).filter q ++
        (staticPropFuncs t).filter q ++
        ((instanceMethods t).map (fun m => Decl.methodImpl m.name)).filter q ++
        (((reimplementedMethods g t).getD []).map
          (fun m => Decl.methodImpl m.name)).filter q := by
  simp only [emitClass, List.filter_append, List.filter_cons, List.append_assoc,
    List.nil_append, List.cons_append]
  by_cases h1 : q (emitInterfaceD g t) = true <;>
    by_cases h2 : q (Decl.proxyStruct (structFields g t)) = true <;>
      simp [h1, h2]

/-- C4 counterexample: `Carrier` declares its interfaces in the order
`Zebra`, `Ant`, but the proxy struct embeds them sorted by fqn, `Ant`
before `Zebra` — not in declared order. -/
theorem c4_declared_order_counterexample :
    structFields carrierGraph nodeCarrier ≠
      claimStructFields carrierGraph nodeCarrier := by decide

/-- C4 (amended): for every class with at least one resolved direct
ancestor, the proxy struct embeds each direct ancestor — its proxy
struct when the ancestor is in the same package, its capability
interface when foreign — in the order: base class first (if any), then
implemented interfaces sorted by fully-qualified name. -/
theorem c4_struct_embedding (g : Graph) (t : TypeNode)
    (h : ((extendsC g t).isNone && (implementsC g t).isEmpty) = false) :
    structFields g t = claimStructFieldsSorted g t := by
  unfold structFields claimStructFieldsSorted
  rw [if_neg (by simp [h])]
  rfl

/-- Witness for C4 (amended) at the `Carrier` fixture. -/
theorem c4_struct_embedding_witness :
    structFields carrierGraph nodeCarrier =
      claimStructFieldsSorted carrierGraph nodeCarrier :=
  c4_struct_embedding carrierGraph nodeCarrier (by decide)

/-- C5: a class with neither a base class nor any implemented interface
emits a proxy struct holding exactly the single padding field. -/
theorem c5_padding_field (g : Graph) (t : TypeNode)
    (h1 : t.base = none) (h2 : t.interfaces = []) :
    structFields g t = [StructField.padding] := by
  unfold structFields extendsC implementsC
  rw [h1, h2]
  rfl

/-- Witness for C5 at the `Base` fixture. -/
theorem c5_padding_field_witness :
    structFields widgetGraph nodeBase = [StructField.padding] :=
  c5_padding_field widgetGraph nodeBase rfl rfl

/-- C6: a construction function is emitted iff the class declares an
initializer; when emitted it is named after the class, takes the
projected parameter list and returns the class's capability interface
type — the type of the emitted interface declaration. -/
theorem c6_constructor_function (g : Graph) (t : TypeNode) :
    (emitClass g t).filter isCtorDecl =
      (if t.hasInitializer then
        [Decl.ctorFunc ("New" ++ t.name) t.initializerParams t.name]
      else []) ∧
    (emitClass g t).filter isIfaceDecl =
      [Decl.iface t.name (ifaceEmbeds g t) (ifaceMemberDecls t)] := by
  constructor
  · have h1 : (emitGettersD g t).filter isCtorDecl = [] :=
      filter_emitGetters_eq_nil g t isCtorDecl (fun s => rfl)
    have h2 : (emitSettersD g t).filter isCtorDecl = [] :=
      filter_emitSetters_eq_nil g t isCtorDecl (fun s => rfl)
    have h3 : ((ownStaticMethods t).map
        (fun m => Decl.staticMethodFunc (t.name ++ "_" ++ m.name))).filter
          isCtorDecl = [] :=
      filter_map_decl_eq_nil _ _ _ (fun b => rfl)
    have h4 : (staticPropFuncs t).filter isCtorDecl = [] :=
      filter_staticPropFuncs_eq_nil t isCtorDecl (fun s => rfl) (fun s => rfl)
    have h5 : ((instanceMethods t).map
        (fun m => Decl.methodImpl m.name)).filter isCtorDecl = [] :=
      filter_map_decl_eq_nil _ _ _ (fun b => rfl)
    have h6 : (((reimplementedMethods g t).getD []).map
        (fun m => Decl.methodImpl m.name)).filter isCtorDecl = [] :=
      filter_map_decl_eq_nil _ _ _ (fun b => rfl)
    rw [filter_emitClass_eq, h1, h2, h3, h4, h5, h6]
    cases hI : t.hasInitializer <;>
      simp [emitInterfaceD, isCtorDecl, List.filter_cons]
  · have h1 : (emitGettersD g t).filter isIfaceDecl = [] :=
      filter_emitGetters_eq_nil g t isIfaceDecl (fun s => rfl)
    have h2 : (emitSettersD g t).filter isIfaceDecl = [] :=
      filter_emitSetters_eq_nil g t isIfaceDecl (fun s => rfl)
    have h3 : ((ownStaticMethods t).map
        (fun m => Decl.staticMethodFunc (t.name ++ "_" ++ m.name))).filter
          isIfaceDecl = [] :=
      filter_map_decl_eq_nil _ _ _ (fun b => rfl)
    have h4 : (staticPropFuncs t).filter isIfaceDecl = [] :=
      filter_staticPropFuncs_eq_nil t isIfaceDecl (fun s => rfl) (fun s => rfl)
    have h5 : ((instanceMethods t).map
        (fun m => Decl.methodImpl m.name)).filter isIfaceDecl = [] :=
      filter_map_decl_eq_nil _ _ _ (fun b => rfl)
    have h6 : (((reimplementedMethods g t).getD []).map
        (fun m => Decl.methodImpl m.name)).filter isIfaceDecl = [] :=
      filter_map_decl_eq_nil _ _ _ (fun b => rfl)
    rw [filter_emitClass_eq, h1, h2, h3, h4, h5, h6]
    cases hI : t.hasInitializer <;>
      simp [emitInterfaceD, isIfaceDecl, List.filter_cons]


theorem filter_not_static_idem (l : List Member) :
    (l.filter (fun m => !m.isStatic)).filter (fun m => !m.isStatic) =
      l.filter (fun m => !m.isStatic) := by
  rw [List.filter_filter]
  simp

/-- C7 counterexample: `Counter` has exactly one static member, the
mutable static property `Total`, yet the emitted output holds two free
functions for it (a getter and a setter), not exactly one. -/
theorem c7_static_function_count_counterexample :
    ((emitClass counterGraph nodeCounter).filter isStaticFuncDecl).length = 2 ∧
      (nodeCounter.ownMethods.filter Member.isStatic).length +
        (nodeCounter.ownProperties.filter Member.isStatic).length = 1 := by decide

/-- C7 (amended): the capability interface is unchanged when all static
own members are removed (no static member ever appears in it); every
static method yields exactly one free function and every static property
a getter free function plus, when mutable, a setter free function, each
named with the owning type's name as a prefixing scope. -/
theorem c7_static_members (g : Graph) (t : TypeNode) :
    emitInterfaceD g (scrubStatics t) = emitInterfaceD g t ∧
    (emitClass g t).filter isStaticFuncDecl =
      ((ownStaticMethods t).map
        (fun m => Decl.staticMethodFunc (t.name ++ "_" ++ m.name))) ++
        staticPropFuncs t ∧
    ∀ d ∈ (emitClass g t).filter isStaticFuncDecl,
      ∃ s, d = Decl.staticMethodFunc (t.name ++ "_" ++ s) ∨
        d = Decl.staticGetFunc (t.name ++ "_" ++ s) ∨
        d = Decl.staticSetFunc (t.name ++ "_" ++ s) := by
  have key : (emitClass g t).filter isStaticFuncDecl =
      ((ownStaticMethods t).map
        (fun m => Decl.staticMethodFunc (t.name ++ "_" ++ m.name))) ++
        staticPropFuncs t := by
    have h1 : (emitGettersD g t).filter isStaticFuncDecl = [] :=
      filter_emitGetters_eq_nil g t isStaticFuncDecl (fun s => rfl)
    have h2 : (emitSettersD g t).filter isStaticFuncDecl = [] :=
      filter_emitSetters_eq_nil g t isStaticFuncDecl (fun s => rfl)
    have h3 : ((ownStaticMethods t).map
        (fun m => Decl.staticMethodFunc (t.name ++ "_" ++ m.name))).filter
          isStaticFuncDecl =
        (ownStaticMethods t).map
          (fun m => Decl.staticMethodFunc (t.name ++ "_" ++ m.name)) :=
      filter_map_decl_eq_self _ _ _ (fun b => rfl)
    have h4 : (staticPropFuncs t).filter isStaticFuncDecl = staticPropFuncs t := by
      unfold staticPropFuncs
      refine filter_flatMap_decl_eq_self _ _ _ ?_
      intro b
      cases hb : b.immutable <;>
        simp [hb, List.filter_cons, List.filter_append, isStaticFuncDecl]
    have h5 : ((instanceMethods t).map
        (fun m => Decl.methodImpl m.name)).filter isStaticFuncDecl = [] :=
      filter_map_decl_eq_nil _ _ _ (fun b => rfl)
    have h6 : (((reimplementedMethods g t).getD []).map
        (fun m => Decl.methodImpl m.name)).filter isStaticFuncDecl = [] :=
      filter_map_decl_eq_nil _ _ _ (fun b => rfl)
    rw [filter_emitClass_eq, h1, h2, h3, h4, h5, h6]
    cases hI : t.hasInitializer <;>
      simp [emitInterfaceD, isStaticFuncDecl, List.filter_cons]
  refine ⟨?_, key, ?_⟩
  · have hm : (scrubStatics t).ownMethods.filter (fun m => !m.isStatic) =
        t.ownMethods.filter (fun m => !m.isStatic) := by
      show (t.ownMethods.filter (fun m => !m.isStatic)).filter
        (fun m => !m.isStatic) = t.ownMethods.filter (fun m => !m.isStatic)
      exact filter_not_static_idem t.ownMethods
    have hp2 : (scrubStatics t).ownProperties.filter (fun m => !m.isStatic) =
        t.ownProperties.filter (fun m => !m.isStatic) := by
      show (t.ownProperties.filter (fun m => !m.isStatic)).filter
        (fun m => !m.isStatic) = t.ownProperties.filter (fun m => !m.isStatic)
      exact filter_not_static_idem t.ownProperties
    unfold emitInterfaceD ifaceEmbeds ifaceMemberDecls instanceProperties
      instanceMethods
    rw [hm, hp2]
    rfl
  · intro d hd
    rw [key] at hd
    rcases List.mem_append.mp hd with hd | hd
    · rcases List.mem_map.mp hd with ⟨m, _, rfl⟩
      exact ⟨m.name, Or.inl rfl⟩
    · unfold staticPropFuncs at hd
      rcases List.mem_flatMap.mp hd with ⟨p, _, hdp⟩
      rcases List.mem_append.mp hdp with hdp | hdp
      · rcases List.mem_singleton.mp hdp with rfl
        exact ⟨p.name, Or.inr (Or.inl rfl)⟩
      · cases hb : p.immutable
        · rw [hb] at hdp
          simp only [if_neg Bool.false_ne_true, List.mem_singleton] at hdp
          subst hdp
          refine ⟨"Set" ++ p.name, Or.inr (Or.inr ?_)⟩
          have h0 : ("_Set" : String) = "_" ++ "Set" := rfl
          rw [h0, ← String.append_assoc, String.append_assoc, String.append_assoc]
        · rw [hb] at hdp
          simp at hdp

/-- Witness for C7 (amended) at the `Counter` fixture. -/
theorem c7_static_members_witness :
    emitInterfaceD counterGraph (scrubStatics nodeCounter) =
        emitInterfaceD counterGraph nodeCounter ∧
      (emitClass counterGraph nodeCounter).filter isStaticFuncDecl =
        ((ownStaticMethods nodeCounter).map
          (fun m => Decl.staticMethodFunc (nodeCounter.name ++ "_" ++ m.name))) ++
          staticPropFuncs nodeCounter ∧
      ∀ d ∈ (emitClass counterGraph nodeCounter).filter isStaticFuncDecl,
        ∃ s, d = Decl.staticMethodFunc (nodeCounter.name ++ "_" ++ s) ∨
          d = Decl.staticGetFunc (nodeCounter.name ++ "_" ++ s) ∨
          d = Decl.staticSetFunc (nodeCounter.name ++ "_" ++ s) :=
  c7_static_members counterGraph nodeCounter

/-- C8: projection is deterministic — the emitted declaration list is a
pure function of the resolved graph and the class, and the sorted
components (own members, resolved interfaces, re-implementation lists)
are in stable name/fqn order. -/
theorem c8_deterministic_projection (g : Graph) (t : TypeNode) :
    emitClass g t = emitClass g t ∧
    (instanceMethods t).Pairwise (fun a b => strLe a.name b.name = true) ∧
    (instanceProperties t).Pairwise (fun a b => strLe a.name b.name = true) ∧
    (implementsC g t).Pairwise (fun a b => strLe a.fqn b.fqn = true) ∧
    ((reimplementedMethods g t).getD []).Pairwise
      (fun a b => strLe a.name b.name = true) ∧
    ((reimplementedProperties g t).getD []).Pairwise
      (fun a b => strLe a.name b.name = true) := by
  refine ⟨rfl, pairwise_sortByKey _ _, pairwise_sortByKey _ _,
    pairwise_sortByKey _ _, ?_, ?_⟩
  · unfold reimplementedMethods
    by_cases h : requiresFlattening g t = true
    · rw [if_pos h]
      exact pairwise_sortByKey _ _
    · rw [if_neg h]
      exact List.Pairwise.nil
  · unfold reimplementedProperties
    by_cases h : requiresFlattening g t = true
    · rw [if_pos h]
      exact pairwise_sortByKey _ _
    · rw [if_neg h]
      exact List.Pairwise.nil

/-- C9 counterexample: constructing the `GoClass` for the `Widget`
fixture already computes the projection plan — the construction trace
contains the plan computation and the re-implementation lists are
already present on the freshly constructed instance, so the plan is not
computed lazily on first access. -/
theorem c9_eager_plan_counterexample :
    (mkGoClass widgetGraph nodeWidget).2 = [CompEvent.planComputed] ∧
      (mkGoClass widgetGraph nodeWidget).1.reimplMethods ≠ none := by decide

/-- C9 (amended): the resolved ancestor information (`extends`,
`implements`) is resolved lazily — the constructor leaves both caches
unfilled, the first access computes and caches, and any access to an
already-filled cache returns the cached value with no recomputation —
while the projection plan is computed eagerly, exactly once, during
construction. -/
theorem c9_lazy_ancestors_eager_plan (g : Graph) (t : TypeNode) :
    (mkGoClass g t).1.extendsCache = none ∧
    (mkGoClass g t).1.implementsCache = none ∧
    (mkGoClass g t).1.reimplMethods = reimplementedMethods g t ∧
    (mkGoClass g t).1.reimplProps = reimplementedProperties g t ∧
    (mkGoClass g t).2 =
      (if requiresFlattening g t then [CompEvent.planComputed] else []) ∧
    (∀ s : GoClassState,
      getExtendsSt g (getExtendsSt g s).2.1 =
        ((getExtendsSt g s).1, (getExtendsSt g s).2.1, [])) ∧
    (∀ s : GoClassState,
      getImplementsSt g (getImplementsSt g s).2.1 =
        ((getImplementsSt g s).1, (getImplementsSt g s).2.1, [])) := by
  refine ⟨rfl, rfl, rfl, rfl, rfl, ?_, ?_⟩
  · intro s
    unfold getExtendsSt
    cases hc : s.extendsCache with
    | some v => rw [hc]
    | none => rfl
  · intro s
    unfold getImplementsSt
    cases hc : s.implementsCache with
    | some v => rw [hc]
    | none => rfl

end JsiiGo

namespace JsiiDiff

/-- C10: the jsii-diff entry point exits 0 with a "Skipping analysis"
notice when either assembly fails to download, exits 1 exactly when the
comparison runs and finds incompatible changes, and exits 0 when it runs
and finds none. -/
theorem c10_exit_codes (orig upd : LoadOutcome) (mismatchCount : Nat) :
    (mainModel orig upd mismatchCount).1 =
      (if orig.failed || upd.failed then 0
       else if mismatchCount > 0 then 1 else 0) ∧
    (mainModel orig upd mismatchCount).2.any isSkipNotice =
      (orig.failed || upd.failed) := by
  cases orig with
  | downloadFailure r =>
    simp [mainModel, LoadOutcome.failed, isSkipNotice, List.any]
  | ok a b =>
    cases upd with
    | downloadFailure r =>
      simp [mainModel, LoadOutcome.failed, isSkipNotice, List.any]
    | ok c d =>
      by_cases h : mismatchCount > 0 <;>
        by_cases hn : (a != c) = true <;>
          simp [mainModel, LoadOutcome.failed, isSkipNotice, h, hn]

end JsiiDiff
